import Mathlib

/-!
Verification development for the coding-agent orchestrator backend.

This file gives a shallow embedding of the parts of the backend that the
checked claims are about:

* `src/backend/src/executors/claude.rs` — the Claude executor: spawn command
  construction, prompt encoding, the streaming-JSON log normalizer
  (`normalize_logs`), path relativization (`make_path_relative`), action-type
  extraction and concise-content rendering;
* `src/backend/src/app_state.rs` — the running-execution registry:
  `get_running_executions_for_monitor` (reaping) and
  `stop_running_execution_by_id`;
* `src/backend/src/mcp/task_server.rs` — `parse_task_status`.

JSON values are modelled by an inductive `Json` mirroring `serde_json::Value`,
together with an executable parser standing in for `serde_json::from_str`.
File-system paths use a component model mirroring `std::path::Path` on Unix.
-/

/-! ## JSON value model (`serde_json::Value`) -/

/-- Model of `serde_json::Value`.  Numbers are collapsed to their integer part:
no function in the embedded code ever reads a numeric field, only string,
array and object accesses occur. -/
inductive Json where
  | null : Json
  | bool : Bool → Json
  | num : Int → Json
  | str : String → Json
  | arr : List Json → Json
  | obj : List (String × Json) → Json

/-- Model of `Value::get(key)` for object values (`None` on any other value,
as in serde_json for string indices). -/
def Json.getField : Json → String → Option Json
  | .obj kvs, k => kvs.lookup k
  | _, _ => none

/-- Model of `Value::as_str`. -/
def Json.asStr : Json → Option String
  | .str s => some s
  | _ => none

/-- Model of `Value::as_array`. -/
def Json.asArr : Json → Option (List Json)
  | .arr xs => some xs
  | _ => none

/-- Composition `value.get(k).and_then(|v| v.as_str())`, ubiquitous in the
normalizer. -/
def Json.getStr (j : Json) (k : String) : Option String :=
  (j.getField k).bind Json.asStr

/-! ## JSON parser (model of `serde_json::from_str`)

The parser is executable and fuelled; the fuel `length + 2` is always
sufficient because every recursive call consumes at least one character. -/

/-- Opening curly brace character. -/
def lbrace : Char := Char.ofNat 123

/-- Closing curly brace character. -/
def rbrace : Char := Char.ofNat 125

/-- JSON insignificant whitespace. -/
def isWsChar (c : Char) : Bool :=
  c == ' ' || c == '\t' || c == '\n' || c == '\r'

/-- Drop leading JSON whitespace. -/
def skipWs : List Char → List Char
  | [] => []
  | c :: cs => if isWsChar c then skipWs cs else c :: cs

/-- Value of a hexadecimal digit. -/
def hexVal (c : Char) : Option Nat :=
  if '0' ≤ c ∧ c ≤ '9' then some (c.toNat - '0'.toNat)
  else if 'a' ≤ c ∧ c ≤ 'f' then some (c.toNat - 'a'.toNat + 10)
  else if 'A' ≤ c ∧ c ≤ 'F' then some (c.toNat - 'A'.toNat + 10)
  else none

/-- Parse the body of a JSON string (after the opening quote), returning the
decoded characters and the remainder after the closing quote.  Control
characters below 0x20 are rejected, escapes are decoded, and `\u` escapes
denoting surrogates are rejected, as in serde_json (surrogate pairs are not
recombined; no claim exercises them). -/
def parseStrChars : Nat → List Char → Option (List Char × List Char)
  | 0, _ => none
  | _ + 1, [] => none
  | n + 1, c :: cs =>
    if c == '"' then some ([], cs)
    else if c.toNat < 32 then none
    else if c == '\\' then
      match cs with
      | [] => none
      | e :: cs' =>
        if e == '"' then (parseStrChars n cs').map (fun p => ('"' :: p.1, p.2))
        else if e == '\\' then (parseStrChars n cs').map (fun p => ('\\' :: p.1, p.2))
        else if e == '/' then (parseStrChars n cs').map (fun p => ('/' :: p.1, p.2))
        else if e == 'n' then (parseStrChars n cs').map (fun p => ('\n' :: p.1, p.2))
        else if e == 't' then (parseStrChars n cs').map (fun p => ('\t' :: p.1, p.2))
        else if e == 'r' then (parseStrChars n cs').map (fun p => ('\r' :: p.1, p.2))
        else if e == 'b' then (parseStrChars n cs').map (fun p => (Char.ofNat 8 :: p.1, p.2))
        else if e == 'f' then (parseStrChars n cs').map (fun p => (Char.ofNat 12 :: p.1, p.2))
        else if e == 'u' then
          match cs' with
          | h1 :: h2 :: h3 :: h4 :: cs'' =>
            match hexVal h1, hexVal h2, hexVal h3, hexVal h4 with
            | some a, some b, some c2, some d =>
              let code := ((a * 16 + b) * 16 + c2) * 16 + d
              if 0xD800 ≤ code ∧ code < 0xE000 then none
              else (parseStrChars n cs'').map (fun p => (Char.ofNat code :: p.1, p.2))
            | _, _, _, _ => none
          | _ => none
        else none
    else (parseStrChars n cs).map (fun p => (c :: p.1, p.2))

/-- Accumulate decimal digits. -/
def digitsToNat (acc : Nat) : List Char → Nat × List Char
  | [] => (acc, [])
  | c :: cs =>
    if '0' ≤ c ∧ c ≤ '9' then digitsToNat (acc * 10 + (c.toNat - '0'.toNat)) cs
    else (acc, c :: cs)

/-- Decimal digit test. -/
def isDigitCh (c : Char) : Bool := '0' ≤ c ∧ c ≤ '9'

/-- Parse the integer part of a JSON number (no leading zeros, as in JSON). -/
def parseIntPart : List Char → Option (Nat × List Char)
  | [] => none
  | c :: cs =>
    if c == '0' then some (0, cs)
    else if '1' ≤ c ∧ c ≤ '9' then some (digitsToNat (c.toNat - '0'.toNat) cs)
    else none

/-- Consume an optional fraction part `.digits`. -/
def parseFrac : List Char → Option (List Char)
  | c :: cs =>
    if c == '.' then
      match cs with
      | d :: _ => if isDigitCh d then some (digitsToNat 0 cs).2 else none
      | [] => none
    else some (c :: cs)
  | [] => some []

/-- Consume an optional exponent part `e[+-]digits`. -/
def parseExp : List Char → Option (List Char)
  | c :: cs =>
    if c == 'e' || c == 'E' then
      let cs2 := match cs with
        | s :: r => if s == '+' || s == '-' then r else s :: r
        | [] => []
      match cs2 with
      | d :: _ => if isDigitCh d then some (digitsToNat 0 cs2).2 else none
      | [] => none
    else some (c :: cs)
  | [] => some []

/-- Match a literal keyword suffix. -/
def dropLit : List Char → List Char → Option (List Char)
  | [], cs => some cs
  | _ :: _, [] => none
  | p :: ps, c :: cs => if c == p then dropLit ps cs else none

/-- Insert a key into an object member list, replacing an existing binding,
as `serde_json`'s map insertion does for duplicate keys (last wins). -/
def insertKey : List (String × Json) → String → Json → List (String × Json)
  | [], k, v => [(k, v)]
  | (k', v') :: rest, k, v =>
    if k' == k then (k, v) :: rest else (k', v') :: insertKey rest k v

mutual

/-- Parse one JSON value. -/
def parseValue : Nat → List Char → Option (Json × List Char)
  | 0, _ => none
  | n + 1, cs =>
    match skipWs cs with
    | [] => none
    | c :: rest =>
      if c == '"' then
        (parseStrChars (rest.length + 1) rest).map (fun p => (Json.str (String.mk p.1), p.2))
      else if c == lbrace then
        match skipWs rest with
        | c2 :: rest2 =>
          if c2 == rbrace then some (Json.obj [], rest2)
          else parseMembers n [] (c2 :: rest2)
        | [] => none
      else if c == '[' then
        match skipWs rest with
        | c2 :: rest2 =>
          if c2 == ']' then some (Json.arr [], rest2)
          else parseItems n [] (c2 :: rest2)
        | [] => none
      else if c == 't' then (dropLit ['r', 'u', 'e'] rest).map (fun r => (Json.bool true, r))
      else if c == 'f' then (dropLit ['a', 'l', 's', 'e'] rest).map (fun r => (Json.bool false, r))
      else if c == 'n' then (dropLit ['u', 'l', 'l'] rest).map (fun r => (Json.null, r))
      else if c == '-' then
        match parseIntPart rest with
        | some (m, r1) =>
          (parseFrac r1).bind fun r2 =>
            (parseExp r2).map fun r3 => (Json.num (-(m : Int)), r3)
        | none => none
      else if isDigitCh c then
        match parseIntPart (c :: rest) with
        | some (m, r1) =>
          (parseFrac r1).bind fun r2 =>
            (parseExp r2).map fun r3 => (Json.num (m : Int), r3)
        | none => none
      else none

/-- Parse the items of a nonempty JSON array (after the opening bracket). -/
def parseItems : Nat → List Json → List Char → Option (Json × List Char)
  | 0, _, _ => none
  | n + 1, acc, cs =>
    match parseValue n cs with
    | none => none
    | some (v, rest) =>
      match skipWs rest with
      | c :: rest2 =>
        if c == ',' then parseItems n (acc ++ [v]) rest2
        else if c == ']' then some (Json.arr (acc ++ [v]), rest2)
        else none
      | [] => none

/-- Parse the members of a nonempty JSON object (after the opening brace). -/
def parseMembers : Nat → List (String × Json) → List Char → Option (Json × List Char)
  | 0, _, _ => none
  | n + 1, acc, cs =>
    match skipWs cs with
    | c :: rest =>
      if c == '"' then
        match parseStrChars (rest.length + 1) rest with
        | none => none
        | some (key, r1) =>
          match skipWs r1 with
          | c2 :: r2 =>
            if c2 == ':' then
              match parseValue n r2 with
              | none => none
              | some (v, r3) =>
                let acc2 := insertKey acc (String.mk key) v
                match skipWs r3 with
                | c3 :: r4 =>
                  if c3 == ',' then parseMembers n acc2 r4
                  else if c3 == rbrace then some (Json.obj acc2, r4)
                  else none
                | [] => none
            else none
          | [] => none
      else none
    | [] => none

end

/-- Model of `serde_json::from_str::<Value>`: a full parse with nothing but
whitespace allowed after the value. -/
def parseJson (cs : List Char) : Option Json :=
  match parseValue (cs.length + 2) cs with
  | some (j, rest) => if (skipWs rest).isEmpty then some j else none
  | none => none

/-! ## Path model (`std::path::Path`, Unix)

`make_path_relative` in `claude.rs` uses `Path::is_relative`,
`Path::strip_prefix` and `to_string_lossy`.  We model Unix path semantics:
`strip_prefix` matches path components (root, `.`-at-start, `..`, normal
segments; empty and interior `.` segments are insignificant) and returns the
remaining slice of the original string with redundant leading and trailing
separators and `.` segments trimmed, exactly as `Components::as_path` does. -/

/-- Model of `std::path::Component` on Unix. -/
inductive PathComp where
  | rootDir
  | curDir
  | parentDir
  | normal (s : List Char)
deriving DecidableEq

/-- Drop leading separators and `.` segments (the `trim_left` normalization of
a component iterator whose front state is `Body`). -/
def dropJunkFront : List Char → List Char
  | [] => []
  | c :: cs =>
    if c == '/' then dropJunkFront cs
    else if c == '.' then
      match cs with
      | [] => []
      | c2 :: cs2 => if c2 == '/' then dropJunkFront cs2 else c :: c2 :: cs2
    else c :: cs

/-- Drop trailing separators and `.` segments, given the reversed character
list (the `trim_right` normalization). -/
def dropJunkBackRev : List Char → List Char
  | [] => []
  | c :: cs =>
    if c == '/' then dropJunkBackRev cs
    else if c == '.' then
      match cs with
      | [] => []
      | c2 :: cs2 => if c2 == '/' then dropJunkBackRev (c2 :: cs2) else c :: c2 :: cs2
    else c :: cs

/-- Split off the next raw segment, consuming a following separator. -/
def takeSeg : List Char → List Char × List Char
  | [] => ([], [])
  | c :: cs =>
    if c == '/' then ([], cs)
    else
      let p := takeSeg cs
      (c :: p.1, p.2)

/-- Parse the next path component off the front of a raw path, `atStart`
signalling the initial state (where a root `/` or a leading `.` component is
recognized). -/
def nextFront (atStart : Bool) (cs : List Char) : Option (PathComp × List Char) :=
  match cs with
  | [] => none
  | c :: rest =>
    if atStart ∧ c == '/' then some (.rootDir, rest)
    else if atStart ∧ c == '.' ∧ (rest = [] ∨ rest.head? = some '/') then
      some (.curDir, match rest with | [] => [] | _ :: r => r)
    else
      match dropJunkFront (c :: rest) with
      | [] => none
      | c' :: rest' =>
        let p := takeSeg (c' :: rest')
        some (if p.1 = ['.', '.'] then .parentDir else .normal p.1, p.2)

/-- Component list of a path (model of `Path::components`). -/
def compsAux : Nat → Bool → List Char → List PathComp
  | 0, _, _ => []
  | n + 1, atStart, cs =>
    match nextFront atStart cs with
    | none => []
    | some (c, rest) => c :: compsAux n false rest

/-- Component list of a path. -/
def pathComps (cs : List Char) : List PathComp :=
  compsAux (cs.length + 1) true cs

/-- Match a list of components against the front of a raw path, returning the
raw remainder. -/
def matchComps : List PathComp → Bool → List Char → Option (List Char)
  | [], _, cs => some cs
  | c :: cs', atStart, s =>
    match nextFront atStart s with
    | none => none
    | some (c2, rest) => if c2 = c then matchComps cs' false rest else none

/-- Model of `Path::strip_prefix` followed by `to_string_lossy` on Unix: the
base's components must prefix the path's components; the result is the raw
remainder with leading and trailing junk trimmed.  A base with no components
(the empty path) strips nothing and returns the path unchanged, as
`Components::as_path` performs no trimming before the first component is
consumed. -/
def strip_prefix (path base : List Char) : Option (List Char) :=
  match pathComps base with
  | [] => some path
  | bcs =>
    match matchComps bcs true path with
    | none => none
    | some rest => some ((dropJunkBackRev (dropJunkFront rest).reverse).reverse)

/-- Model of `Path::is_relative` on Unix: no leading `/`. -/
def isRelativePath : List Char → Bool
  | [] => true
  | c :: _ => ¬ (c == '/')

/-- Translation of `ClaudeExecutor::make_path_relative` (claude.rs:289-307):
already-relative paths are returned as-is; otherwise the worktree prefix is
stripped when possible; otherwise the original path is returned. -/
def make_path_relative (path worktree_path : String) : String :=
  if isRelativePath path.data then path
  else
    match strip_prefix path.data worktree_path.data with
    | some rel => String.mk rel
    | none => path

/-! ## Canonical conversation model

The `executor` module that declares these types is not among the provided
sources (only its `executors/*` implementors are), so the carrier types are
modelled from the spec, §4.3. -/

/-- Modelled from the spec: `ActionType` tagged variant (§4.3); declared in
the missing `executor` module. -/
inductive ActionType where
  | fileRead (path : String)
  | fileWrite (path : String)
  | commandRun (command : String)
  | search (query : String)
  | webFetch (url : String)
  | taskCreate (description : String)
  | other (description : String)
deriving DecidableEq

/-- Modelled from the spec: `entry_type` of a normalized entry (§4.3);
declared in the missing `executor` module. -/
inductive NormalizedEntryType where
  | userMessage
  | assistantMessage
  | systemMessage
  | toolUse (tool_name : String) (action_type : ActionType)
deriving DecidableEq

/-- Modelled from the spec: one normalized transcript entry (§4.3); declared
in the missing `executor` module. -/
structure NormalizedEntry where
  timestamp : Option String
  entry_type : NormalizedEntryType
  content : String
  metadata : Option Json

/-- Modelled from the spec: the canonical transcript (§4.3); declared in the
missing `executor` module. -/
structure NormalizedConversation where
  entries : List NormalizedEntry
  session_id : Option String
  executor_type : String
  prompt : Option String
  summary : Option String

/-! ## ASCII lowercasing

Both `claude.rs` and `task_server.rs` compare `s.to_lowercase()` against
ASCII keywords.  Rust's `to_lowercase` is the full Unicode mapping; it agrees
with ASCII lowercasing on whether the result equals any of the ASCII keywords
compared against in this code base (no non-ASCII character lowercases to a
single ASCII character other than `k` and `å`, neither of which occurs in the
keywords), so the embedding uses ASCII lowercasing. -/

/-- Lowercase one ASCII character. -/
def lowerChar (c : Char) : Char :=
  if 'A' ≤ c ∧ c ≤ 'Z' then Char.ofNat (c.toNat + 32) else c

/-- ASCII lowercasing of a string (model of `str::to_lowercase`). -/
def asciiLowercase (s : String) : String :=
  String.mk (s.data.map lowerChar)

/-! ## Claude action-type extraction and concise content (claude.rs:309-498) -/

/-- Translation of `ClaudeExecutor::extract_action_type` (claude.rs:401-497). -/
def extract_action_type (tool_name : String) (input : Json) (worktree_path : String) :
    ActionType :=
  match asciiLowercase tool_name with
  | "read" =>
    match input.getStr "file_path" with
    | some file_path => .fileRead (make_path_relative file_path worktree_path)
    | none => .other "File read operation"
  | "edit" | "write" | "multiedit" =>
    match input.getStr "file_path" with
    | some file_path => .fileWrite (make_path_relative file_path worktree_path)
    | none =>
      match input.getStr "path" with
      | some path => .fileWrite (make_path_relative path worktree_path)
      | none => .other "File write operation"
  | "bash" =>
    match input.getStr "command" with
    | some command => .commandRun command
    | none => .other "Command execution"
  | "grep" =>
    match input.getStr "pattern" with
    | some pattern => .search pattern
    | none => .other "Search operation"
  | "glob" =>
    match input.getStr "pattern" with
    | some pattern => .other ("Find files: " ++ pattern)
    | none => .other "File pattern search"
  | "webfetch" =>
    match input.getStr "url" with
    | some url => .webFetch url
    | none => .other "Web fetch operation"
  | "task" =>
    match input.getStr "description" with
    | some description => .taskCreate description
    | none =>
      match input.getStr "prompt" with
      | some prompt => .taskCreate prompt
      | none => .other "Task creation"
  | _ => .other ("Tool: " ++ tool_name)

/-- Render one todo item of the `todowrite`/`todoread` checklist
(claude.rs:330-352); an item without a string `content` renders nothing. -/
def todoItemLine (todo : Json) : List String :=
  match todo.getStr "content" with
  | none => []
  | some content =>
    let status := (todo.getStr "status").getD "pending"
    let status_emoji :=
      if status = "completed" then "✅"
      else if status = "in_progress" then "🔄"
      else if status = "pending" ∨ status = "todo" then "⏳"
      else "📝"
    let priority := (todo.getStr "priority").getD "medium"
    [status_emoji ++ " " ++ content ++ " (" ++ priority ++ ")"]

/-- Translation of `ClaudeExecutor::generate_concise_content`
(claude.rs:309-399). -/
def generate_concise_content (tool_name : String) (input : Json)
    (action_type : ActionType) (worktree_path : String) : String :=
  match action_type with
  | .fileRead path => "`" ++ path ++ "`"
  | .fileWrite path => "`" ++ path ++ "`"
  | .commandRun command => "`" ++ command ++ "`"
  | .search query => "`" ++ query ++ "`"
  | .webFetch url => "`" ++ url ++ "`"
  | .taskCreate description => description
  | .other _ =>
    match asciiLowercase tool_name with
    | "todoread" | "todowrite" =>
      match (input.getField "todos").bind Json.asArr with
      | some todos =>
        let todo_items := (todos.map todoItemLine).flatten
        if ¬ todo_items.isEmpty then
          "TODO List:\n" ++ String.intercalate "\n" todo_items
        else "Managing TODO list"
      | none => "Managing TODO list"
    | "ls" =>
      match input.getStr "path" with
      | some path =>
        let relative_path := make_path_relative path worktree_path
        if relative_path = "" then "List directory"
        else "List directory: `" ++ relative_path ++ "`"
      | none => "List directory"
    | "glob" =>
      let pattern := (input.getStr "pattern").getD "*"
      match input.getStr "path" with
      | some search_path =>
        "Find files: `" ++ pattern ++ "` in `" ++
          make_path_relative search_path worktree_path ++ "`"
      | none => "Find files: `" ++ pattern ++ "`"
    | "codebase_search_agent" =>
      match input.getStr "query" with
      | some query => "Search: " ++ query
      | none => "Codebase search"
    | _ => tool_name

/-! ## Claude log normalizer (claude.rs:106-284) -/

/-- Entry for a line that is not valid JSON (claude.rs:126-133). -/
def rawEntry (t : List Char) : NormalizedEntry :=
  { timestamp := none
    entry_type := .systemMessage
    content := "Raw output: " ++ String.mk t
    metadata := none }

/-- Entries contributed by one element of an `assistant` message's
`content` array (claude.rs:151-204). -/
def assistantItem (worktree_path : String) (item : Json) : List NormalizedEntry :=
  match item.getStr "type" with
  | some "text" =>
    match item.getStr "text" with
    | some text =>
      [{ timestamp := none, entry_type := .assistantMessage, content := text,
         metadata := some item }]
    | none => []
  | some "tool_use" =>
    match item.getStr "name" with
    | some tool_name =>
      let input := (item.getField "input").getD Json.null
      let action_type := extract_action_type tool_name input worktree_path
      [{ timestamp := none
         entry_type := .toolUse tool_name action_type
         content := generate_concise_content tool_name input action_type worktree_path
         metadata := some item }]
    | none => []
  | _ => []

/-- Entries contributed by one element of a `user` message's `content`
array (claude.rs:213-230). -/
def userItem (item : Json) : List NormalizedEntry :=
  match item.getStr "type" with
  | some "text" =>
    match item.getStr "text" with
    | some text =>
      [{ timestamp := none, entry_type := .userMessage, content := text,
         metadata := some item }]
    | none => []
  | _ => []

/-- Entries produced by one parsed JSON line, implementing the dispatch on the
`type` field including the silent drop of `result` lines and the
`Unrecognized JSON` fallback (claude.rs:144-274). -/
def entriesOf (worktree_path : String) (raw : String) (j : Json) :
    List NormalizedEntry :=
  match j.getStr "type" with
  | some "assistant" =>
    match ((j.getField "message").bind (fun m => m.getField "content")).bind Json.asArr with
    | some content => (content.map (assistantItem worktree_path)).flatten
    | none => []
  | some "user" =>
    match ((j.getField "message").bind (fun m => m.getField "content")).bind Json.asArr with
    | some content => (content.map userItem).flatten
    | none => []
  | some "system" =>
    match j.getStr "subtype" with
    | some "init" =>
      [{ timestamp := none
         entry_type := .systemMessage
         content := "System initialized with model: " ++ ((j.getStr "model").getD "unknown")
         metadata := some j }]
    | _ => []
  | some "result" => []
  | _ =>
    [{ timestamp := none
       entry_type := .systemMessage
       content := "Unrecognized JSON: " ++ raw
       metadata := some j }]

/-- Whitespace trimming of a line (model of `str::trim`; the inputs at issue
contain only ASCII whitespace). -/
def trimChars (cs : List Char) : List Char :=
  ((cs.dropWhile (fun c => isWsChar c)).reverse.dropWhile (fun c => isWsChar c)).reverse

/-- Split a character list at newline characters (model of `str::lines`; the
trailing-`\r` and final-empty-line differences between `lines` and a plain
split are absorbed by the trim-and-skip of empty lines in the loop). -/
def splitOnNl : List Char → List (List Char)
  | [] => [[]]
  | c :: cs =>
    if c == '\n' then [] :: splitOnNl cs
    else
      match splitOnNl cs with
      | l :: ls => (c :: l) :: ls
      | [] => [[c]]

/-- Main loop of `normalize_logs` (claude.rs:116-275): per line, trim and skip
empties, fall back to a raw entry for non-JSON, capture the first
`session_id`, and append the entries of the line's dispatch. -/
def normLoop (worktree_path : String) (sess : Option String) :
    List (List Char) → List NormalizedEntry × Option String
  | [] => ([], sess)
  | l :: ls =>
    let t := trimChars l
    if t.isEmpty then normLoop worktree_path sess ls
    else
      match parseJson t with
      | none =>
        let rest := normLoop worktree_path sess ls
        (rawEntry t :: rest.1, rest.2)
      | some j =>
        let sess' := if sess.isNone then j.getStr "session_id" else sess
        let rest := normLoop worktree_path sess' ls
        (entriesOf worktree_path (String.mk t) j ++ rest.1, rest.2)

/-- Translation of `ClaudeExecutor::normalize_logs` (claude.rs:106-284). -/
def normalize_logs (logs : String) (worktree_path : String) :
    Except String NormalizedConversation :=
  let r := normLoop worktree_path none (splitOnNl logs.data)
  .ok { entries := r.1
        session_id := r.2
        executor_type := "claude"
        prompt := none
        summary := none }

/-! ## Theorems about the Claude log normalizer -/

/-- C1 scenario input: the four-line Claude log of spec §8 scenario 1. -/
def scenario1Log : String :=
  "\x7b\"type\":\"system\",\"subtype\":\"init\",\"session_id\":\"E\",\"model\":\"claude-sonnet-4\"\x7d\n\x7b\"type\":\"assistant\",\"message\":\x7b\"content\":[\x7b\"type\":\"text\",\"text\":\"Hello world\"\x7d]\x7d,\"session_id\":\"E\"\x7d\n\x7b\"type\":\"result\",\"subtype\":\"success\"\x7d\n\x7b\"type\":\"unknown\",\"data\":\"x\"\x7d"

/-- C1: normalizing the scenario-1 Claude log yields exactly three entries in
order — a SystemMessage naming the model, the AssistantMessage "Hello world",
and a SystemMessage beginning "Unrecognized JSON:" — the result line produces
no entry, and the captured session_id is "E". -/
theorem claude_normalize_scenario1 :
    ∃ c, normalize_logs scenario1Log "/tmp/w" = .ok c ∧
      c.entries.map (fun e => (e.entry_type, e.content)) =
        [(.systemMessage, "System initialized with model: claude-sonnet-4"),
         (.assistantMessage, "Hello world"),
         (.systemMessage, "Unrecognized JSON: \x7b\"type\":\"unknown\",\"data\":\"x\"\x7d")] ∧
      c.session_id = some "E" :=
  ⟨_, rfl, by decide, by decide⟩

/-- C4: the normalizer is total — for every input string it returns the `Ok`
variant, and the empty input yields a conversation with no entries and no
session id. -/
theorem claude_normalize_total (logs worktree_path : String) :
    (∃ c, normalize_logs logs worktree_path = .ok c) ∧
    normalize_logs "" worktree_path =
      .ok { entries := [], session_id := none, executor_type := "claude",
            prompt := none, summary := none } :=
  ⟨⟨_, rfl⟩, rfl⟩

/-- Specification-side definition for the session-capture claim, following the
spec's words: the `session_id` carried by the first line that parses as JSON
and has a string `session_id` field (lines that are blank after trimming or
are not JSON carry none). -/
def firstSessionSpec : List (List Char) → Option String
  | [] => none
  | l :: ls =>
    let t := trimChars l
    if t.isEmpty then firstSessionSpec ls
    else
      match parseJson t with
      | none => firstSessionSpec ls
      | some j =>
        match j.getStr "session_id" with
        | some s => some s
        | none => firstSessionSpec ls

/-- Invariant of the normalizer loop: the returned session id is the
accumulator if already set, else the first session id of the remaining lines. -/
theorem normLoop_session (worktree_path : String) (sess : Option String)
    (ls : List (List Char)) :
    (normLoop worktree_path sess ls).2 =
      (match sess with | some s => some s | none => firstSessionSpec ls) := by
  induction ls generalizing sess with
  | nil => cases sess <;> rfl
  | cons l ls ih =>
    simp only [normLoop, firstSessionSpec]
    by_cases h : (trimChars l).isEmpty
    · simpa [h] using ih sess
    · cases hp : parseJson (trimChars l) with
      | none => simpa [h, hp] using ih sess
      | some j =>
        cases sess with
        | some s => simpa [h, hp] using ih (some s)
        | none =>
          cases hq : j.getStr "session_id" with
          | none => simpa [h, hp, hq] using ih none
          | some s => simp [h, hp, hq, ih]

/-- C9 example log: the only `session_id` of the stream sits on the silently
dropped `result` line; a later line carries a different one. -/
def c9ResultLog : String :=
  "\x7b\"type\":\"result\",\"subtype\":\"success\",\"session_id\":\"R\"\x7d\n\x7b\"type\":\"assistant\",\"message\":\x7b\"content\":[]\x7d,\"session_id\":\"S2\"\x7d"

/-- C9 example log: the only `session_id` sits on a line of unrecognized type. -/
def c9UnknownLog : String :=
  "\x7b\"type\":\"mystery\",\"session_id\":\"U\"\x7d"

/-- C9: `normalize_logs` captures the session id of the first JSON line that
carries one — even when that line contributes no entry (a dropped `result`
line or an unrecognized-type line) — and a later line with a different
session id never overrides the first. -/
theorem claude_session_first_wins :
    (∀ logs worktree_path : String,
      ∃ c, normalize_logs logs worktree_path = .ok c ∧
        c.session_id = firstSessionSpec (splitOnNl logs.data)) ∧
    (∃ c, normalize_logs c9ResultLog "/w" = .ok c ∧ c.session_id = some "R") ∧
    (∃ c, normalize_logs c9UnknownLog "/w" = .ok c ∧ c.session_id = some "U") := by
  refine ⟨fun logs worktree_path => ⟨_, rfl, ?_⟩, ⟨_, rfl, by decide⟩, ⟨_, rfl, by decide⟩⟩
  exact normLoop_session worktree_path none (splitOnNl logs.data)

/-! ## Path relativization: counterexample and amended properties (C5) -/

/-- Model of `Path::join` on Unix: an absolute argument replaces the base; a
separator is inserted unless the base is empty or already ends in one. -/
def joinPath (base p : String) : String :=
  if ¬ isRelativePath p.data then p
  else if base = "" ∨ base.data.getLast? = some '/' then base ++ p
  else base ++ "/" ++ p

/-- Real path segment: usable as a `Normal` component of a worktree —
nonempty, separator-free, and not `.` or `..`. -/
def realSeg (s : List Char) : Prop :=
  s ≠ [] ∧ '/' ∉ s ∧ s ≠ ['.'] ∧ s ≠ ['.', '.']

/-- Segments joined by single separators. -/
def segsJoined : List (List Char) → List Char
  | [] => []
  | [s] => s
  | s :: ws => s ++ '/' :: segsJoined ws

/-- Canonical absolute path built from segments. -/
def canonAbs (ws : List (List Char)) : List Char :=
  '/' :: segsJoined ws

/-- Segments, each followed by a separator, in front of a tail. -/
def joinSegs : List (List Char) → List Char → List Char
  | [], p => p
  | s :: ws, p => s ++ '/' :: joinSegs ws p

/-- Specification-side "p lies under w": w's components prefix p's. -/
def pathUnder (path worktree : String) : Prop :=
  pathComps worktree.data <+: pathComps path.data

/-- C5 counterexample: with worktree `/tmp/w` and the relative path `.`,
the round trip strips the `.` component: relativizing `join("/tmp/w", ".")`
returns `""`, not `"."`, so the round-trip equation of the claim fails. -/
theorem make_path_relative_dot_counterexample :
    isRelativePath ".".data = true ∧
    joinPath "/tmp/w" "." = "/tmp/w/." ∧
    make_path_relative (joinPath "/tmp/w" ".") "/tmp/w" = "" ∧
    make_path_relative (joinPath "/tmp/w" ".") "/tmp/w" ≠ "." := by
  refine ⟨by decide, by decide, by decide, ?_⟩
  decide

/-- A head character that is neither a separator nor a lone/sep-followed dot
survives front trimming. -/
theorem dropJunkFront_keep (c : Char) (rest : List Char)
    (hc : c ≠ '/') (hcdot : c = '.' → ∃ c2 r2, rest = c2 :: r2 ∧ c2 ≠ '/') :
    dropJunkFront (c :: rest) = c :: rest := by
  unfold dropJunkFront
  rw [if_neg (by simpa using hc)]
  by_cases h1 : c = '.'
  · obtain ⟨c2, r2, hr, hc2⟩ := hcdot h1
    subst hr
    rw [if_pos (by simpa using h1)]
    show (if c2 == '/' then dropJunkFront r2 else c :: c2 :: r2) = c :: c2 :: r2
    rw [if_neg (by simpa using hc2)]
  · rw [if_neg (by simpa using h1)]

/-- Front trimming never lengthens a list. -/
theorem dropJunkFront_length : ∀ (cs : List Char), (dropJunkFront cs).length ≤ cs.length
  | [] => Nat.le_refl _
  | c :: cs => by
    unfold dropJunkFront
    split
    · exact Nat.le_trans (dropJunkFront_length cs) (Nat.le_succ _)
    · split
      · match cs with
        | [] => simp
        | c2 :: cs2 =>
          simp only
          split
          · refine Nat.le_trans (dropJunkFront_length cs2) ?_
            simp
            omega
          · exact Nat.le_refl _
      · exact Nat.le_refl _

/-- Splitting off a segment of a separator-free prefix. -/
theorem takeSeg_append (s cs : List Char) (hs : '/' ∉ s) :
    takeSeg (s ++ '/' :: cs) = (s, cs) := by
  induction s with
  | nil => simp [takeSeg]
  | cons c s' ih =>
    have hc : ¬ (c == '/') = true := by
      simp only [beq_iff_eq]
      intro h
      exact hs (h ▸ List.mem_cons_self _ _)
    have hs' : '/' ∉ s' := fun h => hs (List.mem_cons_of_mem _ h)
    simp [takeSeg, hc, ih hs']

/-- Splitting a separator-free list yields the whole list. -/
theorem takeSeg_no_sep (s : List Char) (hs : '/' ∉ s) : takeSeg s = (s, []) := by
  induction s with
  | nil => simp [takeSeg]
  | cons c s' ih =>
    have hc : ¬ (c == '/') = true := by
      simp only [beq_iff_eq]
      intro h
      exact hs (h ▸ List.mem_cons_self _ _)
    have hs' : '/' ∉ s' := fun h => hs (List.mem_cons_of_mem _ h)
    simp [takeSeg, hc, ih hs']

/-- The remainder of splitting a nonempty list is strictly shorter. -/
theorem takeSeg_length : ∀ (l : List Char), l ≠ [] → (takeSeg l).2.length < l.length
  | c :: cs, _ => by
    unfold takeSeg
    split
    · simp
    · cases cs with
      | nil => simp [takeSeg]
      | cons c2 cs2 =>
        have := takeSeg_length (c2 :: cs2) (by simp)
        simp only [List.length_cons] at this ⊢
        omega

/-- In the initial state, a separator parses as the root component. -/
theorem nextFront_root (cs : List Char) : nextFront true ('/' :: cs) = some (.rootDir, cs) := by
  simp [nextFront]

/-- Helper: parsing one component past the initial state when front trimming
keeps the list intact. -/
theorem nextFront_false_of_keep (c : Char) (rest : List Char)
    (hkeep : dropJunkFront (c :: rest) = c :: rest) :
    nextFront false (c :: rest) =
      some (if (takeSeg (c :: rest)).1 = ['.', '.'] then .parentDir
            else .normal (takeSeg (c :: rest)).1, (takeSeg (c :: rest)).2) := by
  simp only [nextFront]
  rw [if_neg (by simp), if_neg (by simp), hkeep]

/-- Past the initial state, a real segment followed by a separator parses as a
normal component consuming the separator. -/
theorem nextFront_seg (s cs : List Char) (h : realSeg s) :
    nextFront false (s ++ '/' :: cs) = some (.normal s, cs) := by
  obtain ⟨hne, hsep, hdot, hdd⟩ := h
  match s, hne with
  | c :: s', _ =>
    have hc : c ≠ '/' := fun hh => hsep (hh ▸ List.mem_cons_self _ _)
    have hkeep : dropJunkFront (c :: (s' ++ '/' :: cs)) = c :: (s' ++ '/' :: cs) := by
      refine dropJunkFront_keep c _ hc ?_
      intro hcd
      match s', hdot, hcd with
      | c2 :: s2, _, _ =>
        exact ⟨c2, s2 ++ '/' :: cs, rfl,
          fun hh => hsep (hh ▸ List.mem_cons_of_mem _ (List.mem_cons_self _ _))⟩
      | [], hdot', hcd' => exact absurd (by rw [hcd']) hdot'
    have hts : takeSeg (c :: (s' ++ '/' :: cs)) = (c :: s', cs) := by
      simpa using takeSeg_append (c :: s') cs hsep
    have := nextFront_false_of_keep c (s' ++ '/' :: cs) hkeep
    rw [hts] at this
    simpa [hdd] using this

/-- Past the initial state, a trailing real segment parses as a normal
component with empty remainder. -/
theorem nextFront_seg_end (s : List Char) (h : realSeg s) :
    nextFront false s = some (.normal s, []) := by
  obtain ⟨hne, hsep, hdot, hdd⟩ := h
  match s, hne with
  | c :: s', _ =>
    have hc : c ≠ '/' := fun hh => hsep (hh ▸ List.mem_cons_self _ _)
    have hkeep : dropJunkFront (c :: s') = c :: s' := by
      refine dropJunkFront_keep c _ hc ?_
      intro hcd
      match s', hdot, hcd with
      | c2 :: s2, _, _ =>
        exact ⟨c2, s2, rfl,
          fun hh => hsep (hh ▸ List.mem_cons_of_mem _ (List.mem_cons_self _ _))⟩
      | [], hdot', hcd' => exact absurd (by rw [hcd']) hdot'
    have hts : takeSeg (c :: s') = (c :: s', []) := takeSeg_no_sep (c :: s') hsep
    have := nextFront_false_of_keep c s' hkeep
    rw [hts] at this
    simpa [hdd] using this

/-- A successfully parsed component strictly consumes input. -/
theorem nextFront_some_length (atStart : Bool) (cs : List Char) (c : PathComp)
    (rest : List Char) (h : nextFront atStart cs = some (c, rest)) :
    rest.length < cs.length := by
  cases cs with
  | nil => exact absurd h (by simp [nextFront])
  | cons c0 rest0 =>
    simp only [nextFront] at h
    split at h
    · cases h
      simp
    · split at h
      · cases h
        cases rest0 with
        | nil => simp
        | cons _ r =>
          simp only [List.length_cons]
          omega
      · revert h
        split
        · intro h
          exact absurd h (by simp)
        · rename_i c' rest' hd
          intro h
          have hrest : rest = (takeSeg (c' :: rest')).2 := by
            cases h
            rfl
          subst hrest
          calc (takeSeg (c' :: rest')).2.length
              < (c' :: rest').length := takeSeg_length _ (by simp)
            _ = (dropJunkFront (c0 :: rest0)).length := by rw [hd]
            _ ≤ (c0 :: rest0).length := dropJunkFront_length _

/-- Successful component matching implies the components prefix the path's
component list (computed with any sufficient fuel). -/
theorem matchComps_isPrefix : ∀ (bcs : List PathComp) (atStart : Bool) (s r : List Char)
    (fuel : Nat), matchComps bcs atStart s = some r → s.length < fuel →
    bcs <+: compsAux fuel atStart s
  | [], _, _, _, _, _, _ => List.nil_prefix
  | b :: bcs', atStart, s, r, fuel, h, hf => by
    unfold matchComps at h
    cases hn : nextFront atStart s with
    | none =>
      rw [hn] at h
      exact absurd h (by simp)
    | some pr =>
      obtain ⟨c2, rest⟩ := pr
      rw [hn] at h
      dsimp only at h
      by_cases hc : c2 = b
      · rw [if_pos hc] at h
        subst hc
        have hlen := nextFront_some_length atStart s c2 rest hn
        obtain ⟨n, rfl⟩ : ∃ n, fuel = n + 1 := ⟨fuel - 1, by omega⟩
        have hrec := matchComps_isPrefix bcs' false rest r n h (by omega)
        simp only [compsAux, hn]
        exact List.cons_prefix_cons.mpr ⟨rfl, hrec⟩
      · rw [if_neg hc] at h
        exact absurd h (by simp)

/-- Component list of a canonical segment join, with any sufficient fuel. -/
theorem compsAux_segsJoined : ∀ (ws : List (List Char)) (fuel : Nat),
    (segsJoined ws).length < fuel → (∀ s ∈ ws, realSeg s) →
    compsAux fuel false (segsJoined ws) = ws.map PathComp.normal
  | [], fuel, _, _ => by
    cases fuel with
    | zero => rfl
    | succ n => simp [compsAux, nextFront, segsJoined]
  | [s], fuel, hf, hreal => by
    have hs : realSeg s := hreal s (by simp)
    have hne : segsJoined [s] = s := rfl
    rw [hne] at hf ⊢
    obtain ⟨n, rfl⟩ : ∃ n, fuel = n + 1 := ⟨fuel - 1, by omega⟩
    simp only [compsAux, nextFront_seg_end s hs]
    cases n <;> simp [compsAux, nextFront]
  | s :: s2 :: ws, fuel, hf, hreal => by
    have hs : realSeg s := hreal s (by simp)
    have hj : segsJoined (s :: s2 :: ws) = s ++ '/' :: segsJoined (s2 :: ws) := rfl
    rw [hj] at hf ⊢
    obtain ⟨n, rfl⟩ : ∃ n, fuel = n + 1 := ⟨fuel - 1, by omega⟩
    simp only [compsAux, nextFront_seg s _ hs]
    have hrec := compsAux_segsJoined (s2 :: ws) n
      (by simp only [List.length_append, List.length_cons] at hf ⊢; omega)
      (fun t ht => hreal t (List.mem_cons_of_mem _ ht))
    rw [hrec]
    simp

/-- One-step unfolding of `compsAux`. -/
theorem compsAux_succ (n : Nat) (atStart : Bool) (cs : List Char) :
    compsAux (n + 1) atStart cs =
      match nextFront atStart cs with
      | none => []
      | some (c, rest) => c :: compsAux n false rest := rfl

/-- Component list of a canonical absolute path. -/
theorem pathComps_canonAbs (ws : List (List Char)) (hreal : ∀ s ∈ ws, realSeg s) :
    pathComps (canonAbs ws) = .rootDir :: ws.map PathComp.normal := by
  unfold pathComps canonAbs
  rw [show ('/' :: segsJoined ws).length = (segsJoined ws).length + 1 from by simp,
    compsAux_succ, nextFront_root]
  dsimp only
  rw [compsAux_segsJoined ws _ (Nat.lt_succ_self _) hreal]

/-- Matching a canonical component list off a joined path leaves exactly the
tail. -/
theorem matchComps_joinSegs : ∀ (ws : List (List Char)) (p : List Char),
    (∀ s ∈ ws, realSeg s) →
    matchComps (ws.map PathComp.normal) false (joinSegs ws p) = some p
  | [], p, _ => rfl
  | s :: ws, p, hreal => by
    have hs : realSeg s := hreal s (by simp)
    have hj : joinSegs (s :: ws) p = s ++ '/' :: joinSegs ws p := rfl
    rw [hj]
    simp only [List.map_cons, matchComps, nextFront_seg s _ hs, if_pos rfl]
    exact matchComps_joinSegs ws p (fun t ht => hreal t (List.mem_cons_of_mem _ ht))

/-- A nonempty separator-free list ends in a non-separator. -/
theorem getLast?_no_sep : ∀ (s : List Char), s ≠ [] → '/' ∉ s →
    ∃ c, s.getLast? = some c ∧ c ≠ '/'
  | [c], _, hs => ⟨c, rfl, fun h => hs (h ▸ List.mem_cons_self _ _)⟩
  | c :: c2 :: s, _, hs => by
    obtain ⟨d, hd, hd2⟩ :=
      getLast?_no_sep (c2 :: s) (by simp) (fun h => hs (List.mem_cons_of_mem _ h))
    exact ⟨d, by rw [List.getLast?_cons_cons]; exact hd, hd2⟩

/-- Canonical segment joins of nonempty segment lists are nonempty. -/
theorem segsJoined_ne_nil : ∀ (ws : List (List Char)), ws ≠ [] →
    (∀ s ∈ ws, realSeg s) → segsJoined ws ≠ []
  | [s], _, hreal => by
    have := (hreal s (by simp)).1
    simpa [segsJoined] using this
  | s :: s2 :: r, _, hreal => by
    have := (hreal s (by simp)).1
    show s ++ '/' :: segsJoined (s2 :: r) ≠ []
    simp

/-- A canonical absolute path over nonempty segments does not end in a
separator. -/
theorem canonAbs_getLast?_ne (ws : List (List Char)) (hne : ws ≠ [])
    (hreal : ∀ s ∈ ws, realSeg s) : (canonAbs ws).getLast? ≠ some '/' := by
  have hj : segsJoined ws ≠ [] := segsJoined_ne_nil ws hne hreal
  have hlast : (canonAbs ws).getLast? = (segsJoined ws).getLast? := by
    show (['/'] ++ segsJoined ws).getLast? = _
    exact List.getLast?_append_of_ne_nil _ hj
  rw [hlast]
  clear hlast
  induction ws with
  | nil => exact absurd rfl hne
  | cons s ws' ih =>
    cases ws' with
    | nil =>
      obtain ⟨c, hc, hc2⟩ :=
        getLast?_no_sep s (hreal s (by simp)).1 (hreal s (by simp)).2.1
      show (segsJoined [s]).getLast? ≠ some '/'
      rw [show segsJoined [s] = s from rfl, hc]
      simpa using hc2
    | cons s2 r =>
      have hj2 : segsJoined (s2 :: r) ≠ [] :=
        segsJoined_ne_nil (s2 :: r) (by simp)
          (fun t ht => hreal t (List.mem_cons_of_mem _ ht))
      show (s ++ '/' :: segsJoined (s2 :: r)).getLast? ≠ some '/'
      rw [List.getLast?_append_of_ne_nil _ (by simp)]
      rw [show '/' :: segsJoined (s2 :: r) = ['/'] ++ segsJoined (s2 :: r) from rfl]
      rw [List.getLast?_append_of_ne_nil _ hj2]
      exact ih (by simp) (fun t ht => hreal t (List.mem_cons_of_mem _ ht)) hj2

/-- Appending a separated tail to a canonical join yields the uniform join. -/
theorem segsJoined_append : ∀ (ws : List (List Char)) (x : List Char), ws ≠ [] →
    segsJoined ws ++ '/' :: x = joinSegs ws x
  | [s], x, _ => rfl
  | s :: s2 :: r, x, _ => by
    have hrec := segsJoined_append (s2 :: r) x (by simp)
    show (s ++ '/' :: segsJoined (s2 :: r)) ++ '/' :: x = s ++ '/' :: joinSegs (s2 :: r) x
    rw [List.append_assoc]
    simp only [List.cons_append]
    rw [hrec]

/-- A path starting with a separator is not relative. -/
theorem isRelativePath_cons_slash (l : List Char) : isRelativePath ('/' :: l) = false := rfl

/-- Character-level shape of `joinPath` on a canonical absolute base and a
relative argument. -/
theorem joinPath_canon (w p : String) (ws : List (List Char))
    (hw : w.data = canonAbs ws) (hreal : ∀ s ∈ ws, realSeg s)
    (hrel : isRelativePath p.data = true) :
    (joinPath w p).data = '/' :: joinSegs ws p.data := by
  unfold joinPath
  rw [if_neg (by simp [hrel])]
  cases ws with
  | nil =>
    rw [if_pos (Or.inr (by rw [hw]; rfl))]
    show (w ++ p).data = '/' :: joinSegs [] p.data
    rw [String.data_append, hw]
    rfl
  | cons s ws' =>
    rw [if_neg ?hns]
    case hns =>
      rintro (hemp | hlast)
      · rw [hemp] at hw
        exact absurd hw.symm (by simp [canonAbs])
      · rw [hw] at hlast
        exact canonAbs_getLast?_ne (s :: ws') (by simp) hreal hlast
    show (w ++ "/" ++ p).data = _
    rw [String.data_append, String.data_append, hw]
    rw [show ("/" : String).data = ['/'] from rfl]
    show ('/' :: segsJoined (s :: ws')) ++ ['/'] ++ p.data = '/' :: joinSegs (s :: ws') p.data
    rw [← segsJoined_append (s :: ws') p.data (by simp)]
    simp

/-- Round trip on a canonical absolute worktree and an edge-clean relative
path: relativizing the join returns the path. -/
theorem make_path_relative_roundtrip (w p : String) (ws : List (List Char))
    (hw : w.data = canonAbs ws) (hreal : ∀ s ∈ ws, realSeg s)
    (hrel : isRelativePath p.data = true)
    (hfront : dropJunkFront p.data = p.data)
    (hback : (dropJunkBackRev p.data.reverse).reverse = p.data) :
    make_path_relative (joinPath w p) w = p := by
  have hjdata := joinPath_canon w p ws hw hreal hrel
  unfold make_path_relative
  rw [hjdata, isRelativePath_cons_slash]
  rw [if_neg (by simp)]
  unfold strip_prefix
  rw [hw, pathComps_canonAbs ws hreal]
  have hm : matchComps (PathComp.rootDir :: ws.map PathComp.normal) true
      ('/' :: joinSegs ws p.data) = some p.data := by
    unfold matchComps
    rw [nextFront_root]
    dsimp only
    rw [if_pos rfl]
    exact matchComps_joinSegs ws p.data hreal
  dsimp only
  rw [hm]
  dsimp only
  rw [hfront, hback]

/-- An absolute path whose components do not extend the worktree's passes
through unchanged. -/
theorem make_path_relative_not_under (p w : String)
    (habs : isRelativePath p.data = false) (h : ¬ pathUnder p w) :
    make_path_relative p w = p := by
  unfold make_path_relative
  rw [habs, if_neg (by simp)]
  unfold strip_prefix
  cases hb : pathComps w.data with
  | nil =>
    refine absurd ?_ h
    unfold pathUnder
    rw [hb]
    exact List.nil_prefix
  | cons b bs =>
    dsimp only
    cases hm : matchComps (b :: bs) true p.data with
    | none => rfl
    | some r =>
      have hpre := matchComps_isPrefix (b :: bs) true p.data r (p.data.length + 1) hm
        (Nat.lt_succ_self _)
      refine absurd ?_ h
      unfold pathUnder
      rw [hb]
      exact hpre

/-- Already-relative paths pass through unchanged. -/
theorem make_path_relative_rel_id (p w : String) (h : isRelativePath p.data = true) :
    make_path_relative p w = p := by
  unfold make_path_relative
  rw [h, if_pos rfl]

instance (s : List Char) : Decidable (realSeg s) := by
  unfold realSeg
  infer_instance

instance (p w : String) : Decidable (pathUnder p w) := by
  unfold pathUnder
  infer_instance

/-- C5 (amended): relativization behaves as claimed on well-formed inputs —
(a) for every worktree `w` that is a canonical absolute path (`/s1/.../sk`,
each segment nonempty, separator-free and not `.` or `..`) and every relative
path `p` with no leading or trailing separator or `.` junk, relativizing
`join(w, p)` against `w` returns `p`; (b) an absolute path whose components
do not extend the worktree's components is returned unchanged; (c) an
already-relative path is returned unchanged.  (The original unrestricted
round-trip claim fails, e.g. at `p = "."`; see the counterexample.) -/
theorem make_path_relative_spec :
    (∀ (w p : String) (ws : List (List Char)),
      w.data = canonAbs ws → (∀ s ∈ ws, realSeg s) →
      isRelativePath p.data = true →
      dropJunkFront p.data = p.data →
      (dropJunkBackRev p.data.reverse).reverse = p.data →
      make_path_relative (joinPath w p) w = p) ∧
    (∀ p w : String, isRelativePath p.data = false → ¬ pathUnder p w →
      make_path_relative p w = p) ∧
    (∀ p w : String, isRelativePath p.data = true → make_path_relative p w = p) :=
  ⟨fun w p ws hw hreal hrel hf hb =>
      make_path_relative_roundtrip w p ws hw hreal hrel hf hb,
   fun p w habs h => make_path_relative_not_under p w habs h,
   fun p w h => make_path_relative_rel_id p w h⟩

/-- Witness for `make_path_relative_spec` at concrete inputs: the worktree
`/tmp/w` with the relative path `src/main.rs` (spec §8 scenario 3), the
outside absolute path `/etc/passwd`, and the relative pass-through. -/
theorem make_path_relative_spec_witness :
    ("/tmp/w".data = canonAbs [['t','m','p'], ['w']] ∧
      (∀ s ∈ [['t','m','p'], ['w']], realSeg s) ∧
      isRelativePath "src/main.rs".data = true ∧
      dropJunkFront "src/main.rs".data = "src/main.rs".data ∧
      (dropJunkBackRev "src/main.rs".data.reverse).reverse = "src/main.rs".data ∧
      make_path_relative (joinPath "/tmp/w" "src/main.rs") "/tmp/w" = "src/main.rs") ∧
    (isRelativePath "/etc/passwd".data = false ∧ ¬ pathUnder "/etc/passwd" "/tmp/w" ∧
      make_path_relative "/etc/passwd" "/tmp/w" = "/etc/passwd") ∧
    (isRelativePath "a/b.txt".data = true ∧
      make_path_relative "a/b.txt" "/tmp/w" = "a/b.txt") :=
  ⟨⟨by decide, by decide, by decide, by decide, by decide,
      make_path_relative_spec.1 "/tmp/w" "src/main.rs" [['t','m','p'], ['w']]
        (by decide) (by decide) (by decide) (by decide) (by decide)⟩,
   ⟨by decide, by decide,
      make_path_relative_spec.2.1 "/etc/passwd" "/tmp/w" (by decide) (by decide)⟩,
   ⟨by decide, make_path_relative_spec.2.2 "a/b.txt" "/tmp/w" (by decide)⟩⟩

/-! ## Task status parsing (task_server.rs:116-125) -/

/-- Task status enumeration (`TaskStatus` of the task model). -/
inductive TaskStatus where
  | todo
  | inProgress
  | inReview
  | done
  | cancelled
deriving DecidableEq

/-- Translation of `parse_task_status` (task_server.rs:116-125): lowercase the
input and match it against the accepted spellings. -/
def parse_task_status (status_str : String) : Option TaskStatus :=
  match asciiLowercase status_str with
  | "todo" => some .todo
  | "inprogress" | "in-progress" | "in_progress" => some .inProgress
  | "inreview" | "in-review" | "in_review" => some .inReview
  | "done" | "completed" => some .done
  | "cancelled" | "canceled" => some .cancelled
  | _ => none

/-- The eleven accepted spellings (in lowercase). -/
def acceptedStatusStrings : List String :=
  ["todo", "inprogress", "in-progress", "in_progress", "inreview", "in-review",
   "in_review", "done", "completed", "cancelled", "canceled"]

/-- C6: `parse_task_status` maps each accepted spelling, in any letter case,
to the corresponding status, and returns `none` for every string whose
lowercasing is outside the accepted set. -/
theorem parse_task_status_spec (s : String) :
    (asciiLowercase s = "todo" → parse_task_status s = some .todo) ∧
    (asciiLowercase s = "inprogress" ∨ asciiLowercase s = "in-progress" ∨
        asciiLowercase s = "in_progress" →
      parse_task_status s = some .inProgress) ∧
    (asciiLowercase s = "inreview" ∨ asciiLowercase s = "in-review" ∨
        asciiLowercase s = "in_review" →
      parse_task_status s = some .inReview) ∧
    (asciiLowercase s = "done" ∨ asciiLowercase s = "completed" →
      parse_task_status s = some .done) ∧
    (asciiLowercase s = "cancelled" ∨ asciiLowercase s = "canceled" →
      parse_task_status s = some .cancelled) ∧
    (asciiLowercase s ∉ acceptedStatusStrings → parse_task_status s = none) := by
  unfold parse_task_status
  refine ⟨?_, ?_, ?_, ?_, ?_, ?_⟩
  · intro h
    rw [h]
    decide
  · rintro (h | h | h) <;> rw [h] <;> decide
  · rintro (h | h | h) <;> rw [h] <;> decide
  · rintro (h | h) <;> rw [h] <;> decide
  · rintro (h | h) <;> rw [h] <;> decide
  · intro h
    split <;> first
      | rfl
      | (rename_i heq
         exact absurd (by rw [heq]; decide) h)

/-- Witness for `parse_task_status_spec` at concrete inputs: a mixed-case
accepted spelling, an upper-case accepted spelling, and a rejected string. -/
theorem parse_task_status_spec_witness :
    (asciiLowercase "In_Progress" = "in_progress" ∧
      parse_task_status "In_Progress" = some .inProgress) ∧
    (asciiLowercase "DONE" = "done" ∧ parse_task_status "DONE" = some .done) ∧
    (asciiLowercase "doneX" ∉ acceptedStatusStrings ∧ parse_task_status "doneX" = none) :=
  ⟨⟨by decide, (parse_task_status_spec "In_Progress").2.1 (Or.inr (Or.inr (by decide)))⟩,
   ⟨by decide, (parse_task_status_spec "DONE").2.2.2.1 (Or.inl (by decide))⟩,
   ⟨by decide, (parse_task_status_spec "doneX").2.2.2.2.2 (by decide)⟩⟩

/-! ## Running-execution registry (app_state.rs:10-158)

The registry is modelled as an association list from execution id to running
execution, its order standing for the map's iteration order; theorems
quantify over all orders.  A child handle is summarized by the outcomes the
operating system reports to the two registry operations. -/

/-- Model of `ExecutionType` (app_state.rs:10-15). -/
inductive ExecutionType where
  | setupScript
  | codingAgent
  | devServer
deriving DecidableEq

instance {ε α : Type} [DecidableEq ε] [DecidableEq α] : DecidableEq (Except ε α) := fun x y =>
  match x, y with
  | .ok a, .ok b =>
    if h : a = b then isTrue (by rw [h]) else isFalse (fun hc => by cases hc; exact h rfl)
  | .error a, .error b =>
    if h : a = b then isTrue (by rw [h]) else isFalse (fun hc => by cases hc; exact h rfl)
  | .ok _, .error _ => isFalse (fun hc => by cases hc)
  | .error _, .ok _ => isFalse (fun hc => by cases hc)

/-- Child process handle, summarized by its observable outcomes: the result
`try_wait` reports at the monitor's poll (`Ok(Some(status))` an exit with
status, `Ok(None)` still running, `Err` an OS error), and the outcome of the
Unix signal-escalation phase of `stop_running_execution_by_id` (whose
`getpgid`/`killpg`/`try_wait` calls propagate OS errors with `?`).  An exit
status carries `code()` as `some c` (normal exit) or `none` (signal death);
`success()` holds exactly for code zero. -/
structure ChildHandle where
  try_wait : Except String (Option (Option Int))
  signalPhase : Except String Unit
deriving DecidableEq

/-- Model of `RunningExecution` (app_state.rs:17-22). -/
structure RunningExecution where
  task_attempt_id : Nat
  execution_type : ExecutionType
  child : ChildHandle
deriving DecidableEq

/-- Reap outcome of one polled entry, as the claim describes it:
`some (success, exit_code)` when `try_wait` reports an exit (success iff the
status is exit code zero) or an OS error (failure, no code), `none` while
still running. -/
def reapOutcome (re : RunningExecution) : Option (Bool × Option Int) :=
  match re.child.try_wait with
  | .ok (some status) => some (status == some 0, status)
  | .ok none => none
  | .error _ => some (false, none)

/-- Collection loop of `get_running_executions_for_monitor`
(app_state.rs:86-111): poll each entry with non-blocking `try_wait`; an exit
is recorded with success-by-exit-zero and its code, an OS error as a failure
with no code; running entries are passed over. -/
def collectReaped : List (Nat × RunningExecution) → List (Nat × Nat × Bool × Option Int)
  | [] => []
  | (execution_id, re) :: rest =>
    match re.child.try_wait with
    | .ok (some status) =>
      (execution_id, re.task_attempt_id, status == some 0, status) :: collectReaped rest
    | .ok none => collectReaped rest
    | .error _ =>
      (execution_id, re.task_attempt_id, false, none) :: collectReaped rest

/-- Removal loop of `get_running_executions_for_monitor` (app_state.rs:113-116):
remove each collected execution id from the map. -/
def removeReaped (m : List (Nat × RunningExecution))
    (completed : List (Nat × Nat × Bool × Option Int)) : List (Nat × RunningExecution) :=
  completed.foldl (fun mm t => mm.eraseP (fun e => e.1 == t.1)) m

/-- Translation of `AppState::get_running_executions_for_monitor`
(app_state.rs:82-119): collect the terminated entries, remove them from the
map, and return them. -/
def get_running_executions_for_monitor (m : List (Nat × RunningExecution)) :
    List (Nat × Nat × Bool × Option Int) × List (Nat × RunningExecution) :=
  let completed := collectReaped m
  (completed, removeReaped m completed)

/-- The collected tuples are exactly the reap outcomes of the entries. -/
theorem collectReaped_eq_filterMap (m : List (Nat × RunningExecution)) :
    collectReaped m = m.filterMap
      (fun e => (reapOutcome e.2).map (fun sc => (e.1, e.2.task_attempt_id, sc.1, sc.2))) := by
  induction m with
  | nil => rfl
  | cons e rest ih =>
    obtain ⟨execution_id, re⟩ := e
    show collectReaped ((execution_id, re) :: rest) = _
    unfold collectReaped reapOutcome
    cases h : re.child.try_wait with
    | ok o =>
      cases o with
      | none => simp [List.filterMap_cons, reapOutcome, h, ih]
      | some status => simp [List.filterMap_cons, reapOutcome, h, ih]
    | error e => simp [List.filterMap_cons, reapOutcome, h, ih]

/-- Every collected id is a key of the map. -/
theorem collectReaped_ids_sub (m : List (Nat × RunningExecution)) :
    ∀ t ∈ collectReaped m, t.1 ∈ m.map Prod.fst := by
  induction m with
  | nil => intro t ht; exact absurd ht (by simp [collectReaped])
  | cons e rest ih =>
    obtain ⟨execution_id, re⟩ := e
    intro t ht
    unfold collectReaped at ht
    revert ht
    cases re.child.try_wait with
    | ok o =>
      cases o with
      | none => intro ht; exact List.mem_cons_of_mem _ (ih t ht)
      | some status =>
        intro ht
        rcases List.mem_cons.mp ht with h | h
        · subst h; simp
        · exact List.mem_cons_of_mem _ (ih t h)
    | error e =>
      intro ht
      rcases List.mem_cons.mp ht with h | h
      · subst h; simp
      · exact List.mem_cons_of_mem _ (ih t h)

/-- Removing ids none of which is the head's key steps over the head. -/
theorem removeReaped_cons_ne (execution_id : Nat) (re : RunningExecution)
    (m : List (Nat × RunningExecution)) :
    ∀ (ts : List (Nat × Nat × Bool × Option Int)), (∀ t ∈ ts, t.1 ≠ execution_id) →
    removeReaped ((execution_id, re) :: m) ts = (execution_id, re) :: removeReaped m ts := by
  intro ts
  induction ts generalizing m with
  | nil => intro _; rfl
  | cons t ts ih =>
    intro hne
    have h1 : t.1 ≠ execution_id := hne t (by simp)
    show removeReaped (((execution_id, re) :: m).eraseP (fun e => e.1 == t.1)) ts =
      (execution_id, re) :: removeReaped (m.eraseP (fun e => e.1 == t.1)) ts
    rw [List.eraseP_cons_of_neg (by simpa using h1.symm)]
    exact ih (m.eraseP (fun e => e.1 == t.1)) (fun u hu => hne u (List.mem_cons_of_mem _ hu))

/-- Under unique keys, removing the collected entries leaves exactly the
still-running entries, in order. -/
theorem removeReaped_eq_filter (m : List (Nat × RunningExecution))
    (hnd : (m.map Prod.fst).Nodup) :
    removeReaped m (collectReaped m) = m.filter (fun e => (reapOutcome e.2).isNone) := by
  induction m with
  | nil => rfl
  | cons e rest ih =>
    obtain ⟨execution_id, re⟩ := e
    have hnd' : (rest.map Prod.fst).Nodup := (List.nodup_cons.mp hnd).2
    have hnotin : execution_id ∉ rest.map Prod.fst := (List.nodup_cons.mp hnd).1
    have hsub : ∀ t ∈ collectReaped rest, t.1 ≠ execution_id := by
      intro t ht heq
      exact hnotin (heq ▸ collectReaped_ids_sub rest t ht)
    unfold collectReaped reapOutcome
    cases h : re.child.try_wait with
    | ok o =>
      cases o with
      | none =>
        rw [removeReaped_cons_ne execution_id re rest (collectReaped rest) hsub]
        rw [ih hnd']
        simp [List.filter_cons, reapOutcome, h]
      | some status =>
        show removeReaped
          (((execution_id, re) :: rest).eraseP (fun e => e.1 == execution_id))
          (collectReaped rest) = _
        rw [List.eraseP_cons_of_pos (by simp)]
        rw [ih hnd']
        simp [List.filter_cons, reapOutcome, h]
    | error err =>
      show removeReaped
        (((execution_id, re) :: rest).eraseP (fun e => e.1 == execution_id))
        (collectReaped rest) = _
      rw [List.eraseP_cons_of_pos (by simp)]
      rw [ih hnd']
      simp [List.filter_cons, reapOutcome, h]

/-- C2: for every registry state with unique execution ids,
`get_running_executions_for_monitor` returns exactly the entries whose
`try_wait` reports an exit — success true iff the exit status is zero, with
the exit code attached — or an OS error, reported as failure with no exit
code; exactly the returned entries are removed from the map, and the
still-running entries remain, unchanged and in order. -/
theorem reap_terminated_spec (m : List (Nat × RunningExecution))
    (hnd : (m.map Prod.fst).Nodup) :
    (get_running_executions_for_monitor m).1 =
      m.filterMap (fun e => (reapOutcome e.2).map
        (fun sc => (e.1, e.2.task_attempt_id, sc.1, sc.2))) ∧
    (get_running_executions_for_monitor m).2 =
      m.filter (fun e => (reapOutcome e.2).isNone) :=
  ⟨collectReaped_eq_filterMap m, removeReaped_eq_filter m hnd⟩

/-- Concrete registry entries for the reap witness: one exited with code 0,
one exited with code 3, one still running, one with a polling error. -/
def reapDemoRegistry : List (Nat × RunningExecution) :=
  [(1, { task_attempt_id := 10, execution_type := .setupScript,
         child := { try_wait := .ok (some (some 0)), signalPhase := .ok () } }),
   (2, { task_attempt_id := 20, execution_type := .codingAgent,
         child := { try_wait := .ok (some (some 3)), signalPhase := .ok () } }),
   (3, { task_attempt_id := 30, execution_type := .devServer,
         child := { try_wait := .ok none, signalPhase := .ok () } }),
   (4, { task_attempt_id := 40, execution_type := .codingAgent,
         child := { try_wait := .error "EIO", signalPhase := .ok () } })]

/-- Witness for `reap_terminated_spec` on a concrete four-entry registry:
ids 1 (success, code 0), 2 (failure, code 3) and 4 (poll error: failure, no
code) are returned and removed; id 3 stays. -/
theorem reap_terminated_spec_witness :
    (reapDemoRegistry.map Prod.fst).Nodup ∧
    (get_running_executions_for_monitor reapDemoRegistry).1 =
      [(1, 10, true, some 0), (2, 20, false, some 3), (4, 40, false, none)] ∧
    (get_running_executions_for_monitor reapDemoRegistry).2 =
      [(3, { task_attempt_id := 30, execution_type := .devServer,
             child := { try_wait := .ok none, signalPhase := .ok () } })] := by
  refine ⟨by decide, ?_, ?_⟩
  · rw [(reap_terminated_spec reapDemoRegistry (by decide)).1]
    decide
  · rw [(reap_terminated_spec reapDemoRegistry (by decide)).2]
    decide

/-! ## Stopping an execution (app_state.rs:127-158) -/

/-- Translation of `AppState::stop_running_execution_by_id`
(app_state.rs:127-158): an unknown id returns `Ok(false)` with the registry
untouched; otherwise the Unix signal-escalation phase runs
(`getpgid`/`killpg`/inter-signal `try_wait`, any OS error propagating with
`?` before the entry is removed), then the handle's own `kill`/`wait` reap
whose errors are ignored, then the entry is removed and `Ok(true)` returned.
The escalation phase is summarized by the child's `signalPhase` outcome. -/
def stop_running_execution_by_id (m : List (Nat × RunningExecution))
    (execution_id : Nat) : Except String (Bool × List (Nat × RunningExecution)) :=
  match m.lookup execution_id with
  | none => .ok (false, m)
  | some re =>
    match re.child.signalPhase with
    | .error e => .error e
    | .ok _ => .ok (true, m.eraseP (fun e => e.1 == execution_id))

/-- Registry with a child whose signal phase reports an OS error. -/
def stopErrRegistry : List (Nat × RunningExecution) :=
  [(7, { task_attempt_id := 70, execution_type := .codingAgent,
         child := { try_wait := .ok none, signalPhase := .error "EPERM" } })]

/-- C3 counterexample: with execution id 7 registered but the process-group
signalling reporting an OS error, `stop_running_execution_by_id` propagates
the error — it does not return `true`, and the entry is not removed. -/
theorem stop_os_error_counterexample :
    stop_running_execution_by_id stopErrRegistry 7 = .error "EPERM" ∧
    ¬ ∃ m', stop_running_execution_by_id stopErrRegistry 7 = .ok (true, m') := by
  refine ⟨by decide, ?_⟩
  rintro ⟨m', hm⟩
  rw [show stop_running_execution_by_id stopErrRegistry 7 = .error "EPERM" from by decide]
    at hm
  exact absurd hm (by simp)

/-- A key outside the key list looks up to nothing. -/
theorem lookup_none_of_not_mem_keys (m : List (Nat × RunningExecution)) (k : Nat)
    (h : k ∉ m.map Prod.fst) : m.lookup k = none := by
  induction m with
  | nil => rfl
  | cons e rest ih =>
    obtain ⟨k2, re⟩ := e
    have hne : (k == k2) = false := by
      simp only [beq_eq_false_iff_ne, ne_eq]
      intro hh
      exact h (by simp [hh.symm])
    show List.lookup k ((k2, re) :: rest) = none
    simp only [List.lookup, hne]
    exact ih (fun hh => h (List.mem_cons_of_mem _ hh))

/-- No key left behind: under unique keys, erasing an id empties its lookup. -/
theorem lookup_eraseP_self (m : List (Nat × RunningExecution)) (execution_id : Nat)
    (hnd : (m.map Prod.fst).Nodup) :
    (m.eraseP (fun e => e.1 == execution_id)).lookup execution_id = none := by
  induction m with
  | nil => rfl
  | cons e rest ih =>
    obtain ⟨k, re⟩ := e
    have hnd2 : (rest.map Prod.fst).Nodup := (List.nodup_cons.mp hnd).2
    have hnotin : k ∉ rest.map Prod.fst := (List.nodup_cons.mp hnd).1
    by_cases hk : k = execution_id
    · subst hk
      rw [List.eraseP_cons_of_pos (by simp)]
      exact lookup_none_of_not_mem_keys rest k hnotin
    · rw [List.eraseP_cons_of_neg (by simpa using hk)]
      have hne : (execution_id == k) = false := by simpa using (Ne.symm hk)
      show List.lookup execution_id ((k, re) :: rest.eraseP (fun e => e.1 == execution_id)) = none
      simp only [List.lookup, hne]
      exact ih hnd2

/-- C3 (amended): `stop_running_execution_by_id` returns `Ok(false)` and
leaves the registry unchanged when the id is not registered; when the id is
registered and the group-signalling phase reports no OS error, it kills and
reaps the child, removes the entry, and returns `Ok(true)` — so under unique
ids stopping the same registered id twice yields `true` then `false`; when
the signalling phase reports an OS error, that error is propagated and the
entry is not removed. -/
theorem stop_spec :
    (∀ (m : List (Nat × RunningExecution)) (execution_id : Nat),
      m.lookup execution_id = none →
      stop_running_execution_by_id m execution_id = .ok (false, m)) ∧
    (∀ (m : List (Nat × RunningExecution)) (execution_id : Nat) (re : RunningExecution),
      m.lookup execution_id = some re → re.child.signalPhase = .ok () →
      stop_running_execution_by_id m execution_id =
        .ok (true, m.eraseP (fun e => e.1 == execution_id))) ∧
    (∀ (m : List (Nat × RunningExecution)) (execution_id : Nat) (re : RunningExecution),
      (m.map Prod.fst).Nodup →
      m.lookup execution_id = some re → re.child.signalPhase = .ok () →
      ∃ m', stop_running_execution_by_id m execution_id = .ok (true, m') ∧
        stop_running_execution_by_id m' execution_id = .ok (false, m')) ∧
    (∀ (m : List (Nat × RunningExecution)) (execution_id : Nat) (re : RunningExecution)
      (msg : String),
      m.lookup execution_id = some re → re.child.signalPhase = .error msg →
      stop_running_execution_by_id m execution_id = .error msg) := by
  refine ⟨?_, ?_, ?_, ?_⟩
  · intro m execution_id h
    unfold stop_running_execution_by_id
    rw [h]
  · intro m execution_id re h hsig
    unfold stop_running_execution_by_id
    rw [h]
    dsimp only
    rw [hsig]
  · intro m execution_id re hnd h hsig
    refine ⟨m.eraseP (fun e => e.1 == execution_id), ?_, ?_⟩
    · unfold stop_running_execution_by_id
      rw [h]
      dsimp only
      rw [hsig]
    · unfold stop_running_execution_by_id
      rw [lookup_eraseP_self m execution_id hnd]
  · intro m execution_id re msg h hsig
    unfold stop_running_execution_by_id
    rw [h]
    dsimp only
    rw [hsig]

/-- Registry with one healthy registered child for the stop witness. -/
def stopDemoRegistry : List (Nat × RunningExecution) :=
  [(5, { task_attempt_id := 50, execution_type := .codingAgent,
         child := { try_wait := .ok none, signalPhase := .ok () } })]

/-- Witness for `stop_spec` at concrete inputs: stopping unregistered id 9
returns false and keeps the registry; stopping registered id 5 twice returns
true (removing the entry) then false. -/
theorem stop_spec_witness :
    (stopDemoRegistry.lookup 9 = none ∧
      stop_running_execution_by_id stopDemoRegistry 9 = .ok (false, stopDemoRegistry)) ∧
    ((stopDemoRegistry.map Prod.fst).Nodup ∧
      ∃ m', stop_running_execution_by_id stopDemoRegistry 5 = .ok (true, m') ∧
        stop_running_execution_by_id m' 5 = .ok (false, m')) :=
  ⟨⟨by decide, stop_spec.1 stopDemoRegistry 9 (by decide)⟩,
   ⟨by decide, stop_spec.2.2.1 stopDemoRegistry 5
      { task_attempt_id := 50, execution_type := .codingAgent,
        child := { try_wait := .ok none, signalPhase := .ok () } }
      (by decide) (by decide) (by decide)⟩⟩

/-! ## Claude spawn commands and prompts (claude.rs:26-104, 500-564) -/

/-- Modelled from the spec: `get_shell_command` of the `utils::shell` module
(not among the provided sources) chooses the platform shell invocation pair —
`sh -c` on Unix, `cmd /C` on Windows (§4.1).  The Unix pair is modelled. -/
def get_shell_command : String × String := ("sh", "-c")

/-- The fixed Claude CLI command line (claude.rs:59). -/
def claude_command : String :=
  "npx -y @anthropic-ai/claude-code@latest -p --dangerously-skip-permissions --verbose --output-format=stream-json"

/-- A constructed child command: program, arguments, working directory, extra
environment entries on top of the inherited parent environment, and the
kill-on-drop flag (the builder calls of claude.rs:61-70 and 516-524; all
three standard streams are piped in both spawns). -/
structure CommandSpec where
  program : String
  args : List String
  current_dir : String
  envAdds : List (String × String)
  kill_on_drop : Bool
deriving DecidableEq

/-- Command built by `ClaudeExecutor::spawn` (claude.rs:56-70): the shell
invocation of `claude_command` with `NODE_NO_WARNINGS=1` added to the
environment. -/
def claudeCommandSpec (worktree_path : String) : CommandSpec :=
  { program := get_shell_command.1
    args := [get_shell_command.2, claude_command]
    current_dir := worktree_path
    envAdds := [("NODE_NO_WARNINGS", "1")]
    kill_on_drop := true }

/-- Command built by `ClaudeFollowupExecutor::spawn` (claude.rs:508-524): the
shell invocation of `claude_command` with `--resume=<session_id>` appended;
no environment entry is added. -/
def claudeFollowupCommandSpec (session_id worktree_path : String) : CommandSpec :=
  { program := get_shell_command.1
    args := [get_shell_command.2, claude_command ++ " --resume=" ++ session_id]
    current_dir := worktree_path
    envAdds := []
    kill_on_drop := true }

/-- Modelled from the spec: the task row consumed by the Claude spawn —
owning project id (a UUID, rendered as a string), title, optional
description (§3 Task); the `models::task` module is not among the provided
sources.  Named `TaskRow` because `Task` is taken by the Lean core. -/
structure TaskRow where
  project_id : String
  title : String
  description : Option String
deriving DecidableEq

/-- Modelled from the spec: `Task::find_by_id` on the database pool, as a
finite map from task id to task row (database errors are not modelled). -/
def findTask (pool : List (Nat × TaskRow)) (task_id : Nat) : Option TaskRow :=
  pool.lookup task_id

/-- Modelled from the spec: executor error kinds raised by the Claude spawns
(§4.1, §7) — `TaskNotFound`, and the spawn-context error through which
claude.rs reports group-spawn, stdin-write and stdin-close failures (all
three are mapped to `ExecutorError::spawn_failed`). -/
inductive ExecutorError where
  | taskNotFound
  | spawnFailed (context : String)
deriving DecidableEq

/-- Outcomes of the IO steps of a spawn, supplied by the environment: the
`group_spawn` result, whether a stdin handle is present (claude.rs takes it
with `if let Some`), and the results of the stdin `write_all` and
`shutdown`. -/
structure OsBehavior where
  group_spawn : Except String Unit
  stdin_present : Bool
  stdin_write : Except String Unit
  stdin_shutdown : Except String Unit
deriving DecidableEq

/-- A spawned child as observable at this level: the constructed command and
the prompt written to its stdin (`none` when no stdin handle was present). -/
structure SpawnedChild where
  cmd : CommandSpec
  stdinWritten : Option String
deriving DecidableEq

/-- Shared IO tail of the two Claude spawns (claude.rs:72-103 and 526-563):
group-spawn the command, then write the prompt to stdin and close it, every
failure mapped to a spawn error. -/
def runSpawnSteps (cmd : CommandSpec) (prompt : String) (os : OsBehavior) :
    Except ExecutorError SpawnedChild :=
  match os.group_spawn with
  | .error e => .error (.spawnFailed e)
  | .ok _ =>
    if os.stdin_present then
      match os.stdin_write with
      | .error e => .error (.spawnFailed e)
      | .ok _ =>
        match os.stdin_shutdown with
        | .error e => .error (.spawnFailed e)
        | .ok _ => .ok { cmd := cmd, stdinWritten := some prompt }
    else .ok { cmd := cmd, stdinWritten := none }

/-- Prompt text of the initial Claude spawn (claude.rs:39-54); the separator
line of the raw string literal consists of twelve spaces. -/
def claudePrompt (task : TaskRow) : String :=
  match task.description with
  | some task_description =>
    "project_id: " ++ task.project_id ++ "\n            \nTask title: " ++
      task.title ++ "\nTask description: " ++ task_description
  | none =>
    "project_id: " ++ task.project_id ++ "\n            \nTask title: " ++ task.title

/-- Translation of `ClaudeExecutor::spawn` (claude.rs:28-104): look the task
up (`TaskNotFound` when absent), build the prompt and the command, then run
the IO steps. -/
def ClaudeExecutor.spawn (pool : List (Nat × TaskRow)) (task_id : Nat)
    (worktree_path : String) (os : OsBehavior) : Except ExecutorError SpawnedChild :=
  match findTask pool task_id with
  | none => .error .taskNotFound
  | some task => runSpawnSteps (claudeCommandSpec worktree_path) (claudePrompt task) os

/-- Model of `ClaudeFollowupExecutor` (claude.rs:21-24). -/
structure ClaudeFollowupExecutor where
  session_id : String
  prompt : String
deriving DecidableEq

/-- Translation of `ClaudeFollowupExecutor::spawn` (claude.rs:502-564): the
pool and task id parameters are ignored (they are `_pool` and `_task_id` in
the source); the command is built from the stored session id and the stored
prompt is written to stdin. -/
def ClaudeFollowupExecutor.spawn (fe : ClaudeFollowupExecutor)
    (_pool : List (Nat × TaskRow)) (_task_id : Nat) (worktree_path : String)
    (os : OsBehavior) : Except ExecutorError SpawnedChild :=
  runSpawnSteps (claudeFollowupCommandSpec fe.session_id worktree_path) fe.prompt os

/-- A successful run of the IO steps returns the constructed command, with
the prompt written when a stdin handle was present. -/
theorem runSpawnSteps_ok (cmd : CommandSpec) (prompt : String) (os : OsBehavior)
    (child : SpawnedChild) (h : runSpawnSteps cmd prompt os = .ok child) :
    child.cmd = cmd ∧ (os.stdin_present = true → child.stdinWritten = some prompt) := by
  unfold runSpawnSteps at h
  obtain ⟨gs, sp, sw, ss⟩ := os
  cases gs with
  | error e => exact absurd h (by simp)
  | ok u =>
    dsimp only at h ⊢
    cases sp with
    | false =>
      rw [if_neg (by simp)] at h
      cases h
      exact ⟨rfl, by simp⟩
    | true =>
      rw [if_pos rfl] at h
      cases sw with
      | error e => exact absurd h (by simp)
      | ok _ =>
        dsimp only at h
        cases ss with
        | error e => exact absurd h (by simp)
        | ok _ =>
          cases h
          exact ⟨rfl, fun _ => rfl⟩

/-- The IO steps end in a spawned child or a spawn-failure error — never any
other error kind. -/
theorem runSpawnSteps_ok_or_spawnFailed (cmd : CommandSpec) (prompt : String)
    (os : OsBehavior) :
    (∃ child, runSpawnSteps cmd prompt os = .ok child) ∨
    (∃ msg, runSpawnSteps cmd prompt os = .error (.spawnFailed msg)) := by
  unfold runSpawnSteps
  obtain ⟨gs, sp, sw, ss⟩ := os
  cases gs with
  | error e => exact Or.inr ⟨e, rfl⟩
  | ok u =>
    dsimp only
    cases sp with
    | false => exact Or.inl ⟨_, by rw [if_neg (by simp)]⟩
    | true =>
      rw [if_pos rfl]
      cases sw with
      | error e => exact Or.inr ⟨e, rfl⟩
      | ok _ =>
        dsimp only
        cases ss with
        | error e => exact Or.inr ⟨e, rfl⟩
        | ok _ => exact Or.inl ⟨_, rfl⟩

/-- C7 counterexample: the follow-up spawn's command adds no environment
entry — in particular `NODE_NO_WARNINGS=1` is absent — so the claim that
every Claude spawn adds it fails at the follow-up executor. -/
theorem claude_followup_env_counterexample :
    (claudeFollowupCommandSpec "abc" "/w").envAdds = [] ∧
    ("NODE_NO_WARNINGS", "1") ∉ (claudeFollowupCommandSpec "abc" "/w").envAdds := by
  refine ⟨rfl, ?_⟩
  simp [claudeFollowupCommandSpec]

/-- C7 (amended): every successful Claude spawn runs, through the platform
shell, the command line `npx -y @anthropic-ai/claude-code@latest -p
--dangerously-skip-permissions --verbose --output-format=stream-json` — the
follow-up with `--resume=<session_id>` appended — in the worktree with
kill-on-drop set; the initial spawn adds `NODE_NO_WARNINGS=1` to the
inherited environment, while the follow-up spawn adds no environment entry. -/
theorem claude_spawn_command_spec :
    (∀ pool task_id worktree_path os child,
      ClaudeExecutor.spawn pool task_id worktree_path os = .ok child →
      child.cmd = { program := "sh", args := ["-c", claude_command],
                    current_dir := worktree_path,
                    envAdds := [("NODE_NO_WARNINGS", "1")], kill_on_drop := true }) ∧
    (∀ fe pool task_id worktree_path os child,
      ClaudeFollowupExecutor.spawn fe pool task_id worktree_path os = .ok child →
      child.cmd = { program := "sh",
                    args := ["-c", claude_command ++ " --resume=" ++ fe.session_id],
                    current_dir := worktree_path, envAdds := [],
                    kill_on_drop := true }) := by
  constructor
  · intro pool task_id worktree_path os child h
    unfold ClaudeExecutor.spawn at h
    cases hf : findTask pool task_id with
    | none => rw [hf] at h; exact absurd h (by simp)
    | some task =>
      rw [hf] at h
      dsimp only at h
      exact (runSpawnSteps_ok _ _ os child h).1
  · intro fe pool task_id worktree_path os child h
    unfold ClaudeFollowupExecutor.spawn at h
    exact (runSpawnSteps_ok _ _ os child h).1

/-- Environment behavior in which every IO step succeeds. -/
def osAllOk : OsBehavior :=
  { group_spawn := .ok (), stdin_present := true,
    stdin_write := .ok (), stdin_shutdown := .ok () }

/-- Task row used by the spawn witnesses. -/
def demoTask : TaskRow :=
  { project_id := "p-1", title := "T", description := some "D" }

/-- Witness for `claude_spawn_command_spec`: a concrete initial spawn and a
concrete follow-up spawn, each with every IO step succeeding. -/
theorem claude_spawn_command_spec_witness :
    (ClaudeExecutor.spawn [(1, demoTask)] 1 "/w" osAllOk =
      .ok { cmd := claudeCommandSpec "/w", stdinWritten := some (claudePrompt demoTask) } ∧
      (claudeCommandSpec "/w").envAdds = [("NODE_NO_WARNINGS", "1")]) ∧
    ({ cmd := claudeCommandSpec "/w",
       stdinWritten := some (claudePrompt demoTask) : SpawnedChild }.cmd =
      { program := "sh", args := ["-c", claude_command], current_dir := "/w",
        envAdds := [("NODE_NO_WARNINGS", "1")], kill_on_drop := true }) ∧
    ({ cmd := claudeFollowupCommandSpec "sess-9" "/w",
       stdinWritten := some "again" : SpawnedChild }.cmd =
      { program := "sh", args := ["-c", claude_command ++ " --resume=" ++ "sess-9"],
        current_dir := "/w", envAdds := [], kill_on_drop := true }) :=
  ⟨⟨by decide, by decide⟩,
   claude_spawn_command_spec.1 [(1, demoTask)] 1 "/w" osAllOk
     { cmd := claudeCommandSpec "/w", stdinWritten := some (claudePrompt demoTask) }
     (by decide),
   claude_spawn_command_spec.2 { session_id := "sess-9", prompt := "again" }
     [(1, demoTask)] 1 "/w" osAllOk
     { cmd := claudeFollowupCommandSpec "sess-9" "/w", stdinWritten := some "again" }
     (by decide)⟩

/-- C8: for every existing task, the prompt the initial Claude spawn writes
to the child's stdin is the block `project_id: <uuid>`, a blank (all-spaces)
separator line, `Task title: <title>`, and — exactly when the task has a
description — a further `Task description: <description>` part. -/
theorem claude_prompt_spec (pool : List (Nat × TaskRow)) (task_id : Nat)
    (worktree_path : String) (os : OsBehavior) (task : TaskRow) (child : SpawnedChild)
    (hfind : findTask pool task_id = some task)
    (hspawn : ClaudeExecutor.spawn pool task_id worktree_path os = .ok child)
    (hstdin : os.stdin_present = true) :
    child.stdinWritten = some (claudePrompt task) ∧
    (∀ d, task.description = some d →
      claudePrompt task =
        "project_id: " ++ task.project_id ++ "\n            \nTask title: " ++
          task.title ++ "\nTask description: " ++ d) ∧
    (task.description = none →
      claudePrompt task =
        "project_id: " ++ task.project_id ++ "\n            \nTask title: " ++
          task.title) := by
  refine ⟨?_, ?_, ?_⟩
  · unfold ClaudeExecutor.spawn at hspawn
    rw [hfind] at hspawn
    dsimp only at hspawn
    exact (runSpawnSteps_ok _ _ os child hspawn).2 hstdin
  · intro d hd
    unfold claudePrompt
    rw [hd]
  · intro hd
    unfold claudePrompt
    rw [hd]

/-- Witness for `claude_prompt_spec` at a concrete task with a description:
the written prompt splits at newlines into exactly the four expected lines,
the second being blank after trimming. -/
theorem claude_prompt_spec_witness :
    (findTask [(1, demoTask)] 1 = some demoTask ∧
      osAllOk.stdin_present = true ∧
      ClaudeExecutor.spawn [(1, demoTask)] 1 "/w" osAllOk =
        .ok { cmd := claudeCommandSpec "/w",
              stdinWritten := some (claudePrompt demoTask) } ∧
      ({ cmd := claudeCommandSpec "/w",
         stdinWritten := some (claudePrompt demoTask) : SpawnedChild }.stdinWritten =
        some (claudePrompt demoTask))) ∧
    splitOnNl (claudePrompt demoTask).data =
      ["project_id: p-1".data, "            ".data, "Task title: T".data,
       "Task description: D".data] ∧
    trimChars "            ".data = [] :=
  ⟨⟨by decide, by decide, by decide,
    (claude_prompt_spec [(1, demoTask)] 1 "/w" osAllOk demoTask
      { cmd := claudeCommandSpec "/w", stdinWritten := some (claudePrompt demoTask) }
      (by decide) (by decide) (by decide)).1⟩,
   by decide, by decide⟩

/-- C10: the follow-up spawn never consults the database and never raises
`TaskNotFound` — its result is the same for every pool and every task id, it
is built from only the stored session id and prompt, and it can fail only
with a spawn-context error (group spawn or stdin write/close). -/
theorem claude_followup_no_db (fe : ClaudeFollowupExecutor) :
    (∀ pool pool' task_id task_id' worktree_path os,
      ClaudeFollowupExecutor.spawn fe pool task_id worktree_path os =
        ClaudeFollowupExecutor.spawn fe pool' task_id' worktree_path os) ∧
    (∀ pool task_id worktree_path os,
      ClaudeFollowupExecutor.spawn fe pool task_id worktree_path os ≠
        .error .taskNotFound) ∧
    (∀ pool task_id worktree_path os,
      (∃ child, ClaudeFollowupExecutor.spawn fe pool task_id worktree_path os =
        .ok child) ∨
      (∃ msg, ClaudeFollowupExecutor.spawn fe pool task_id worktree_path os =
        .error (.spawnFailed msg))) := by
  refine ⟨fun _ _ _ _ _ _ => rfl, ?_, ?_⟩
  · intro pool task_id worktree_path os h
    rcases runSpawnSteps_ok_or_spawnFailed
        (claudeFollowupCommandSpec fe.session_id worktree_path) fe.prompt os with
      ⟨child, hc⟩ | ⟨msg, hm⟩
    · rw [show ClaudeFollowupExecutor.spawn fe pool task_id worktree_path os =
          runSpawnSteps (claudeFollowupCommandSpec fe.session_id worktree_path)
            fe.prompt os from rfl, hc] at h
      exact absurd h (by simp)
    · rw [show ClaudeFollowupExecutor.spawn fe pool task_id worktree_path os =
          runSpawnSteps (claudeFollowupCommandSpec fe.session_id worktree_path)
            fe.prompt os from rfl, hm] at h
      exact absurd h (by simp)
  · intro pool task_id worktree_path os
    exact runSpawnSteps_ok_or_spawnFailed _ _ os

/-- Witness for `claude_followup_no_db` at concrete inputs: the same result
on two different pools and task ids, no `TaskNotFound`, and a successful
child. -/
theorem claude_followup_no_db_witness :
    (ClaudeFollowupExecutor.spawn { session_id := "s", prompt := "p" } [] 0 "/w" osAllOk =
      ClaudeFollowupExecutor.spawn { session_id := "s", prompt := "p" }
        [(1, demoTask)] 99 "/w" osAllOk) ∧
    (ClaudeFollowupExecutor.spawn { session_id := "s", prompt := "p" } [] 0 "/w" osAllOk ≠
      .error .taskNotFound) ∧
    ((∃ child, ClaudeFollowupExecutor.spawn { session_id := "s", prompt := "p" }
        [] 0 "/w" osAllOk = .ok child) ∨
      (∃ msg, ClaudeFollowupExecutor.spawn { session_id := "s", prompt := "p" }
        [] 0 "/w" osAllOk = .error (.spawnFailed msg))) :=
  ⟨(claude_followup_no_db { session_id := "s", prompt := "p" }).1 [] [(1, demoTask)]
      0 99 "/w" osAllOk,
   (claude_followup_no_db { session_id := "s", prompt := "p" }).2.1 [] 0 "/w" osAllOk,
   (claude_followup_no_db { session_id := "s", prompt := "p" }).2.2 [] 0 "/w" osAllOk⟩
